import Mathlib

/-!
A shallow embedding of the feature-transform and linear-scoring pipeline of
the TensorFlow linear-model tutorial notebook
(`Data Representation/Linear-Models/TensorFlow-Linear-Model-Tutorial.ipynb`).
The notebook declares feature columns and delegates their execution to the
external TensorFlow framework; wherever an operation's implementation is not
in the repository, the definition below is modelled from the specification and
its doc comment says so.
-/

namespace TFLinear

/-- A raw typed field value: string or integer-valued number. -/
inductive Value where
  | str (s : String)
  | num (n : Int)
deriving DecidableEq

/-- The error kinds of the pipeline (spec §7). -/
inductive Err where
  | MalformedRecordError
  | TypeCoercionError
  | MissingFieldError
  | UnknownSpecVariantError
  | InvalidBoundariesError
  | DimensionMismatchError
deriving DecidableEq

/-- Modelled from the spec: the fixed CSV column order of `_CSV_COLUMNS`
(declared in the external `wide_deep.py`, referenced by the notebook);
the notebook's `parse_csv` zips these names with the decoded fields. -/
def csvColumns : List String :=
  ["age", "workclass", "fnlwgt", "education", "education_num",
   "marital_status", "occupation", "relationship", "race", "gender",
   "capital_gain", "capital_loss", "hours_per_week", "native_country",
   "income_bracket"]

/-- Modelled from the spec: `_CSV_COLUMN_DEFAULTS`, one default-typed value
per column (number vs string per spec §6); the default's type is the
coercion target of the corresponding field. -/
def csvDefaults : List Value :=
  [.num 0, .str "", .num 0, .str "", .num 0,
   .str "", .str "", .str "", .str "", .str "",
   .num 0, .num 0, .num 0, .str "", .str ""]

/-- The numeric value of a decimal digit character, if it is one. -/
def digitVal (c : Char) : Option Nat :=
  if 48 ≤ c.toNat ∧ c.toNat ≤ 57 then some (c.toNat - 48) else none

/-- Accumulating decimal read of a digit list; `none` on a non-digit. -/
def natOfDigits : Nat → List Char → Option Nat
  | acc, [] => some acc
  | acc, c :: cs =>
    match digitVal c with
    | some d => natOfDigits (acc * 10 + d) cs
    | none => none

/-- Modelled from the spec: coercion of a raw field to an integer
(an optional leading minus sign followed by decimal digits);
`none` marks an unparseable numeric field. -/
def strToInt (s : String) : Option Int :=
  match s.data with
  | [] => none
  | '-' :: rest =>
    match rest with
    | [] => none
    | _ => (natOfDigits 0 rest).map (fun n => -(n : Int))
  | cs => (natOfDigits 0 cs).map (fun n => (n : Int))

/-- Split a character list on the comma delimiter; a list of n commas
yields n+1 fields. -/
def splitOnComma : List Char → List (List Char)
  | [] => [[]]
  | c :: rest =>
    if c = ',' then [] :: splitOnComma rest
    else
      match splitOnComma rest with
      | [] => [[c]]
      | f :: fs => (c :: f) :: fs

/-- Modelled from the spec: split an input line on the fixed comma
delimiter into raw string fields. -/
def splitFields (line : String) : List String :=
  (splitOnComma line.data).map (fun cs => String.mk cs)

/-- Modelled from the spec: coerce one field using the default's type as
target: string columns keep the raw string, numeric columns parse the
field, failing with `TypeCoercionError`. -/
def coerce (default : Value) (field : String) : Except Err Value :=
  match default with
  | .str _ => .ok (.str field)
  | .num _ =>
    match strToInt field with
    | some n => .ok (.num n)
    | none => .error .TypeCoercionError

/-- Coerce every field against its column default, position by position. -/
def coerceAll : List Value → List String → Except Err (List Value)
  | [], [] => .ok []
  | d :: ds, f :: fs => do
    let v ← coerce d f
    let vs ← coerceAll ds fs
    .ok (v :: vs)
  | _, _ => .error .MalformedRecordError

/-- A parsed raw record: an ordered association of column names to values. -/
abbrev Record := List (String × Value)

/-- First-match lookup of a column in a record. -/
def lookupField : Record → String → Option Value
  | [], _ => none
  | (k, v) :: rest, key => if k = key then some v else lookupField rest key

/-- Remove a column from a record (the `dict.pop` of `parse_csv`). -/
def removeField : Record → String → Record
  | [], _ => []
  | (k, v) :: rest, key =>
    if k = key then removeField rest key else (k, v) :: removeField rest key

/-- Embedding of `parse_csv` from the notebook's `input_fn`; the internals
of `tf.decode_csv` are modelled from the spec: split the line on the comma
delimiter, fail with `MalformedRecordError` unless the field count equals
the declared column count, coerce each field to its column default's type,
zip the column names with the coerced values, then pop `income_bracket`
and return the boolean label, true exactly when that string is ">50K". -/
def parseCsv (line : String) : Except Err (Record × Bool) := do
  let fields := splitFields line
  if fields.length = csvColumns.length then
    let vals ← coerceAll csvDefaults fields
    let features := csvColumns.zip vals
    let label := decide (lookupField features "income_bracket" = some (.str ">50K"))
    .ok (removeField features "income_bracket", label)
  else
    .error .MalformedRecordError

/-- Modelled from the spec: a stable, deterministic, well-distributed string
hash (the spec leaves the exact function open; a 31-ary polynomial hash
reduced modulo 2^32 is used here). -/
def stableHash (s : String) : Nat :=
  s.data.foldl (fun h c => (h * 31 + c.toNat) % 4294967296) 17

/-- Modelled from the spec: auto-incremental vocabulary IDs starting from 0;
the index of the first occurrence of `s`, or the vocabulary length when `s`
is out of vocabulary. -/
def vocabIndex : List String → String → Nat
  | [], _ => 0
  | v :: rest, s => if v = s then 0 else vocabIndex rest s + 1

/-- Modelled from the spec: the bucket index of `x` for ordered boundaries,
i.e. how many leading boundaries are ≤ `x` (the linear form of the spec's
binary search; extensionally equal on sorted boundaries). -/
def bucketize : List Int → Int → Nat
  | [], _ => 0
  | b :: bs, x => if x < b then 0 else bucketize bs x + 1

/-- Boundaries are strictly increasing. -/
def strictlyIncr : List Int → Bool
  | [] => true
  | [_] => true
  | a :: b :: rest => decide (a < b) && strictlyIncr (b :: rest)

/-- The closed tagged variant of a feature column (spec §3, §9): numeric
passthrough, vocabulary categorical, hash-bucket categorical, bucketized
numeric, and the cross of other specifications. -/
inductive FeatureSpec where
  | numeric (col : String)
  | vocab (col : String) (vocabulary : List String)
  | hashed (col : String) (hashBucketSize : Nat)
  | bucketized (col : String) (boundaries : List Int)
  | crossed (subs : List FeatureSpec) (hashBucketSize : Nat)

/-- The declared width of a specification: 1 for numeric, the declared
cardinality for every one-hot variant. -/
def width : FeatureSpec → Nat
  | .numeric _ => 1
  | .vocab _ V => V.length + 1
  | .hashed _ n => n
  | .bucketized _ bs => bs.length + 1
  | .crossed _ n => n

/-- The fixed total dimension of a spec sequence's feature vector. -/
def totalWidth (specs : List FeatureSpec) : Nat :=
  (specs.map width).sum

/-- The one-hot vector of dimension `n` activated at index `i`. -/
def oneHot (n i : Nat) : List Int :=
  (List.range n).map (fun j => if j = i then 1 else 0)

/-- Modelled from the spec: the composite key of a cross, the concatenation
of the constituent indices. -/
def crossKey (indices : List Nat) : String :=
  String.intercalate "_" (indices.map Nat.repr)

mutual
/-- Modelled from the spec: the categorical/bucket index of one non-numeric
feature specification on a record. A vocabulary column looks the string up
(out-of-vocabulary routes to the designated last bucket), a hashed column
hashes the string modulo its bucket count, a bucketized column requires
strictly increasing boundaries (`InvalidBoundariesError` otherwise) and
buckets the number, and a cross combines its constituents' indices into a
composite key hashed modulo its bucket count. A missing column is
`MissingFieldError`; a numeric spec has no categorical index
(`UnknownSpecVariantError`); a value of the wrong type is
`TypeCoercionError`. -/
def specIndex (r : Record) : FeatureSpec → Except Err Nat
  | .numeric _ => .error .UnknownSpecVariantError
  | .vocab col V =>
    match lookupField r col with
    | some (.str s) => .ok (vocabIndex V s)
    | some (.num _) => .error .TypeCoercionError
    | none => .error .MissingFieldError
  | .hashed col n =>
    match lookupField r col with
    | some (.str s) => .ok (stableHash s % n)
    | some (.num _) => .error .TypeCoercionError
    | none => .error .MissingFieldError
  | .bucketized col bs =>
    match lookupField r col with
    | some (.num x) =>
      if strictlyIncr bs then .ok (bucketize bs x)
      else .error .InvalidBoundariesError
    | some (.str _) => .error .TypeCoercionError
    | none => .error .MissingFieldError
  | .crossed subs n => do
    let indices ← specIndexList r subs
    .ok (stableHash (crossKey indices) % n)

/-- The indices of a list of constituent specifications, failing atomically
on the first failing constituent. -/
def specIndexList (r : Record) : List FeatureSpec → Except Err (List Nat)
  | [] => .ok []
  | s :: rest => do
    let i ← specIndex r s
    let is ← specIndexList r rest
    .ok (i :: is)
end

/-- Modelled from the spec: the numeric sub-vector of one specification on a
record: the raw number itself for a numeric spec, the one-hot encoding of
the computed index for every other variant. -/
def transformSpec (r : Record) (s : FeatureSpec) : Except Err (List Int) :=
  match s with
  | .numeric col =>
    match lookupField r col with
    | some (.num x) => .ok [x]
    | some (.str _) => .error .TypeCoercionError
    | none => .error .MissingFieldError
  | s => do
    let i ← specIndex r s
    .ok (oneHot (width s) i)

/-- Modelled from the spec: the full feature vector of an ordered spec
sequence, the concatenation of each spec's sub-vector; any failing spec
fails the whole transform with its error and no partial result. -/
def transform (r : Record) : List FeatureSpec → Except Err (List Int)
  | [] => .ok []
  | s :: rest => do
    let v ← transformSpec r s
    let vs ← transform r rest
    .ok (v ++ vs)

/-- One coefficient per feature slot plus a bias scalar (spec §3). -/
structure WeightVector where
  coefficients : List ℝ
  bias : ℝ

/-- The dot product of two equal-length real vectors. -/
noncomputable def dotProduct : List ℝ → List ℝ → ℝ
  | [], _ => 0
  | _, [] => 0
  | a :: xs, b :: ys => a * b + dotProduct xs ys

/-- The logistic function of the notebook, `S(t) = 1 / (1 + exp (-t))`,
over the real numbers. -/
noncomputable def sigmoid (z : ℝ) : ℝ := 1 / (1 + Real.exp (-z))

/-- Modelled from the spec: the linear score `sigmoid (bias + w · x)`,
failing with `DimensionMismatchError` on a feature/coefficient length
mismatch. -/
noncomputable def score (features : List ℝ) (w : WeightVector) : Except Err ℝ :=
  if features.length = w.coefficients.length then
    .ok (sigmoid (w.bias + dotProduct w.coefficients features))
  else
    .error .DimensionMismatchError

/-- Modelled from the spec: thresholded label prediction. -/
noncomputable def predictLabel (p : ℝ) (threshold : ℝ) : Bool :=
  decide (threshold ≤ p)

/-- Modelled from the spec: clamp a probability away from exactly 0 and 1
before taking logarithms. -/
noncomputable def clampProb (p : ℝ) : ℝ :=
  max (1 / 10 ^ 7) (min (1 - 1 / 10 ^ 7) p)

/-- Modelled from the spec: the log loss `-(y log p + (1-y) log (1-p))`
on the clamped probability. -/
noncomputable def loss (p : ℝ) (y : Bool) : ℝ :=
  -(if y then Real.log (clampProb p) else Real.log (1 - clampProb p))

/-- The `education` vocabulary list declared in the notebook. -/
def educationVocab : List String :=
  ["Bachelors", "HS-grad", "11th", "Masters", "9th", "Some-college",
   "Assoc-acdm", "Assoc-voc", "7th-8th", "Doctorate", "Prof-school",
   "5th-6th", "10th", "1st-4th", "Preschool", "12th"]

/-- `education = categorical_column_with_vocabulary_list('education', …)`. -/
def education : FeatureSpec := .vocab "education" educationVocab

/-- `marital_status` vocabulary column of the notebook. -/
def maritalStatus : FeatureSpec :=
  .vocab "marital_status"
    ["Married-civ-spouse", "Divorced", "Married-spouse-absent",
     "Never-married", "Separated", "Married-AF-spouse", "Widowed"]

/-- `relationship` vocabulary column of the notebook. -/
def relationship : FeatureSpec :=
  .vocab "relationship"
    ["Husband", "Not-in-family", "Wife", "Own-child", "Unmarried",
     "Other-relative"]

/-- `workclass` vocabulary column of the notebook. -/
def workclass : FeatureSpec :=
  .vocab "workclass"
    ["Self-emp-not-inc", "Private", "State-gov", "Federal-gov",
     "Local-gov", "?", "Self-emp-inc", "Without-pay", "Never-worked"]

/-- `occupation = categorical_column_with_hash_bucket('occupation', 1000)`. -/
def occupation : FeatureSpec := .hashed "occupation" 1000

/-- `age = numeric_column('age')`. -/
def age : FeatureSpec := .numeric "age"

/-- The `age_buckets` boundary list declared in the notebook. -/
def ageBoundaries : List Int := [18, 25, 30, 35, 40, 45, 50, 55, 60, 65]

/-- `age_buckets = bucketized_column(age, boundaries=[18, …, 65])`. -/
def ageBuckets : FeatureSpec := .bucketized "age" ageBoundaries

/-- `crossed_column(['education', 'occupation'], hash_bucket_size=1000)`. -/
def educationXOccupation : FeatureSpec := .crossed [education, occupation] 1000

/-- `crossed_column([age_buckets, 'education', 'occupation'], 1000)`. -/
def ageBucketsXEducationXOccupation : FeatureSpec :=
  .crossed [ageBuckets, education, occupation] 1000

/-- The notebook's `base_columns` list. -/
def baseColumns : List FeatureSpec :=
  [education, maritalStatus, relationship, workclass, occupation, ageBuckets]

/-- The notebook's `crossed_columns` list. -/
def crossedColumns : List FeatureSpec :=
  [educationXOccupation, ageBucketsXEducationXOccupation]

/-- Declaration-time well-formedness of a specification's bucket count:
hashed and crossed specifications declare a positive `hash_bucket_size`
(spec §6: the configuration surface is validated eagerly). -/
def specWF : FeatureSpec → Bool
  | .hashed _ n => decide (0 < n)
  | .crossed _ n => decide (0 < n)
  | _ => true

/-- Whether a specification is the numeric passthrough variant. -/
def isNumericSpec : FeatureSpec → Bool
  | .numeric _ => true
  | _ => false

/-- The raw input line of the spec's end-to-end example scenario (§8). -/
def exampleLine : String :=
  "39,State-gov,77516,Bachelors,13,Never-married,Adm-clerical,Not-in-family,White,Male,2174,0,40,United-States,<=50K"

/-- The raw record the example line parses to, the label column removed. -/
def exampleParsed : Record :=
  [("age", .num 39), ("workclass", .str "State-gov"), ("fnlwgt", .num 77516),
   ("education", .str "Bachelors"), ("education_num", .num 13),
   ("marital_status", .str "Never-married"),
   ("occupation", .str "Adm-clerical"),
   ("relationship", .str "Not-in-family"), ("race", .str "White"),
   ("gender", .str "Male"), ("capital_gain", .num 2174),
   ("capital_loss", .num 0), ("hours_per_week", .num 40),
   ("native_country", .str "United-States")]

/-! ## Bucketization lemmas -/

theorem bucketize_zero_of_lt (b : Int) (bs : List Int) (x : Int) (h : x < b) :
    bucketize (b :: bs) x = 0 := by
  simp [bucketize, h]

theorem bucketize_succ_of_le (b : Int) (bs : List Int) (x : Int) (h : b ≤ x) :
    bucketize (b :: bs) x = bucketize bs x + 1 := by
  simp [bucketize, not_lt.mpr h]

theorem bucketize_le_length (bs : List Int) (x : Int) :
    bucketize bs x ≤ bs.length := by
  induction bs with
  | nil => simp [bucketize]
  | cons b t ih =>
    by_cases h : x < b
    · simp [bucketize, h]
    · simp only [bucketize, if_neg h, List.length_cons]
      omega

theorem strictlyIncr_cons {b c : Int} {u : List Int}
    (h : strictlyIncr (b :: c :: u) = true) :
    b < c ∧ strictlyIncr (c :: u) = true := by
  simpa [strictlyIncr] using h

theorem strictlyIncr_tail {b : Int} {t : List Int}
    (h : strictlyIncr (b :: t) = true) : strictlyIncr t = true := by
  cases t with
  | nil => rfl
  | cons c u => exact (strictlyIncr_cons h).2

theorem strictlyIncr_head_lt {b : Int} {t : List Int}
    (h : strictlyIncr (b :: t) = true) : ∀ y ∈ t, b < y := by
  induction t generalizing b with
  | nil => intro y hy; cases hy
  | cons c u ih =>
    intro y hy
    obtain ⟨hbc, hcu⟩ := strictlyIncr_cons h
    rcases List.mem_cons.mp hy with rfl | hyu
    · exact hbc
    · exact lt_trans hbc (ih hcu y hyu)

theorem bucketize_of_lt_head (bs : List Int) (x : Int) (h0 : 0 < bs.length)
    (h : x < bs.get ⟨0, h0⟩) : bucketize bs x = 0 := by
  cases bs with
  | nil => simp at h0
  | cons b t => exact bucketize_zero_of_lt b t x (by simpa using h)

theorem bucketize_of_between (bs : List Int) (x : Int) (i : Nat)
    (hs : strictlyIncr bs = true) (hi : i < bs.length) (hi0 : 0 < i)
    (hlow : bs.get ⟨i - 1, by omega⟩ ≤ x) (hhigh : x < bs.get ⟨i, hi⟩) :
    bucketize bs x = i := by
  induction bs generalizing i with
  | nil => simp at hi
  | cons b t ih =>
    rcases i with _ | _ | j
    · omega
    · have hb : b ≤ x := by simpa using hlow
      cases t with
      | nil => simp at hi
      | cons c u =>
        have hc : x < c := by simpa using hhigh
        rw [bucketize_succ_of_le _ _ _ hb, bucketize_zero_of_lt c u x hc]
    · have hit : j + 1 < t.length := by simpa using hi
      have hlow2 : t.get ⟨j, by omega⟩ ≤ x := by simpa using hlow
      have hhigh2 : x < t.get ⟨j + 1, hit⟩ := by simpa using hhigh
      have hb : b ≤ x := by
        refine le_of_lt (lt_of_lt_of_le (strictlyIncr_head_lt hs _ ?_) hlow2)
        exact List.get_mem t j _
      rw [bucketize_succ_of_le _ _ _ hb,
        ih (j + 1) (strictlyIncr_tail hs) hit (Nat.succ_pos j)
          (by simpa using hlow2) hhigh2]

theorem bucketize_of_last_le (bs : List Int) (x : Int)
    (hs : strictlyIncr bs = true) (h0 : 0 < bs.length)
    (hlast : bs.get ⟨bs.length - 1, by omega⟩ ≤ x) :
    bucketize bs x = bs.length := by
  induction bs with
  | nil => simp at h0
  | cons b t ih =>
    cases t with
    | nil =>
      have hb : b ≤ x := by simpa using hlast
      rw [bucketize_succ_of_le b [] x hb]
      simp [bucketize]
    | cons c u =>
      have hlast2 : (c :: u).get ⟨(c :: u).length - 1, by simp⟩ ≤ x := by
        simpa using hlast
      have hb : b ≤ x := by
        refine le_of_lt (lt_of_lt_of_le (strictlyIncr_head_lt hs _ ?_) hlast2)
        exact List.get_mem (c :: u) _ _
      rw [bucketize_succ_of_le _ _ _ hb,
        ih (strictlyIncr_tail hs) (by simp) hlast2]
      simp

/-- C1: for strictly increasing boundaries, the Bucketized transform sends
`x < boundaries[0]` to bucket 0, `boundaries[i-1] ≤ x < boundaries[i]` to
bucket `i`, and `x ≥ boundaries[last]` to bucket `len boundaries`; on the
boundaries `[18, 25, 30]` it maps 17 to bucket 0, 18 to bucket 1, 29 to
bucket 2 (amended: the claim's example value 1 contradicts the law), and
30 to bucket 3. -/
theorem C1_bucketize_boundary_law (bs : List Int) (x : Int)
    (hs : strictlyIncr bs = true) :
    (∀ (h0 : 0 < bs.length), x < bs.get ⟨0, h0⟩ → bucketize bs x = 0) ∧
    (∀ (i : Nat) (hi : i < bs.length), 0 < i →
      bs.get ⟨i - 1, by omega⟩ ≤ x → x < bs.get ⟨i, hi⟩ → bucketize bs x = i) ∧
    (∀ (h0 : 0 < bs.length), bs.get ⟨bs.length - 1, by omega⟩ ≤ x →
      bucketize bs x = bs.length) ∧
    (bucketize [18, 25, 30] 17 = 0 ∧ bucketize [18, 25, 30] 18 = 1 ∧
      bucketize [18, 25, 30] 29 = 2 ∧ bucketize [18, 25, 30] 30 = 3) :=
  ⟨fun h0 h => bucketize_of_lt_head bs x h0 h,
   fun i hi hi0 hl hh => bucketize_of_between bs x i hs hi hi0 hl hh,
   fun h0 hl => bucketize_of_last_le bs x hs h0 hl,
   by decide⟩

/-- C1 witness: the boundary law applied at boundaries `[18, 25, 30]`,
input 20 (middle case, bucket 1) and input 40 (last case, bucket 3). -/
theorem C1_bucketize_boundary_law_witness :
    bucketize [18, 25, 30] 20 = 1 ∧ bucketize [18, 25, 30] 40 = 3 :=
  ⟨(C1_bucketize_boundary_law [18, 25, 30] 20 (by decide)).2.1 1 (by decide)
      (by decide) (by decide) (by decide),
   (C1_bucketize_boundary_law [18, 25, 30] 40 (by decide)).2.2.1 (by decide)
      (by decide)⟩

/-- C1 counterexample: on boundaries `[18, 25, 30]` the input 29 falls in
the half-open interval `[25, 30)`, hence bucket 2, not bucket 1 as the
claim's example states (the notebook's own prose also places 25–29 in the
third bucket). -/
theorem C1_counterexample :
    bucketize [18, 25, 30] 29 = 2 ∧ bucketize [18, 25, 30] 29 ≠ 1 := by
  decide

/-! ## Vocabulary lookup lemmas -/

theorem vocabIndex_le_length (V : List String) (s : String) :
    vocabIndex V s ≤ V.length := by
  induction V with
  | nil => simp [vocabIndex]
  | cons v rest ih =>
    by_cases h : v = s
    · simp [vocabIndex, h]
    · simp only [vocabIndex, if_neg h, List.length_cons]
      omega

theorem vocabIndex_of_not_mem {V : List String} {s : String} (h : s ∉ V) :
    vocabIndex V s = V.length := by
  induction V with
  | nil => rfl
  | cons v rest ih =>
    have hvs : v ≠ s := by rintro rfl; exact h (List.mem_cons_self _ _)
    have hrest := ih (fun hm => h (List.mem_cons_of_mem _ hm))
    simp [vocabIndex, hvs, hrest]

theorem vocabIndex_lt_length_of_mem {V : List String} {s : String}
    (h : s ∈ V) : vocabIndex V s < V.length := by
  induction V with
  | nil => cases h
  | cons v rest ih =>
    by_cases hv : v = s
    · simp [vocabIndex, hv]
    · rcases List.mem_cons.mp h with rfl | hm
      · exact absurd rfl hv
      · simp only [vocabIndex, if_neg hv, List.length_cons]
        exact Nat.succ_lt_succ (ih hm)

theorem getElem?_vocabIndex_of_mem {V : List String} {s : String}
    (h : s ∈ V) : V[vocabIndex V s]? = some s := by
  induction V with
  | nil => cases h
  | cons v rest ih =>
    by_cases hv : v = s
    · simp [vocabIndex, hv]
    · rcases List.mem_cons.mp h with rfl | hm
      · exact absurd rfl hv
      · simp [vocabIndex, hv, ih hm]

/-- C2: the vocabulary-categorical transform is a deterministic function of
the raw string: an in-vocabulary string yields its (first) index in the
vocabulary list — an auto-incremental ID starting from 0 — an
out-of-vocabulary string yields the designated last bucket
`len vocabulary`, and the declared cardinality is `len vocabulary + 1`. -/
theorem C2_vocab_lookup (col : String) (V : List String) (s : String)
    (r : Record) (hr : lookupField r col = some (.str s)) :
    specIndex r (.vocab col V) = .ok (vocabIndex V s) ∧
    (s ∈ V → V[vocabIndex V s]? = some s ∧ vocabIndex V s < V.length) ∧
    (s ∉ V → vocabIndex V s = V.length) ∧
    width (.vocab col V) = V.length + 1 := by
  refine ⟨?_, fun h => ⟨getElem?_vocabIndex_of_mem h, vocabIndex_lt_length_of_mem h⟩,
    fun h => vocabIndex_of_not_mem h, rfl⟩
  simp [specIndex, hr]

/-- C2 witness: on the notebook's `education` column, "Bachelors" is ID 0
and an out-of-vocabulary string routes to the last bucket, index 16. -/
theorem C2_vocab_lookup_witness :
    specIndex [("education", Value.str "Bachelors")] education = .ok 0 ∧
    vocabIndex educationVocab "Junior-college" = 16 := by
  constructor
  · exact (C2_vocab_lookup "education" educationVocab "Bachelors"
      [("education", Value.str "Bachelors")] (by decide)).1.trans rfl
  · exact (C2_vocab_lookup "education" educationVocab "Junior-college"
      [("education", Value.str "Junior-college")] (by decide)).2.2.1 (by decide)

/-! ## Hash-bucket and crossed-spec range lemmas -/

theorem specIndex_hashed_lt {r : Record} {col : String} {n : Nat} {i : Nat}
    (hn : 0 < n) (h : specIndex r (.hashed col n) = .ok i) : i < n := by
  cases hl : lookupField r col with
  | none => simp [specIndex, hl] at h
  | some v =>
    cases v with
    | str s =>
      simp only [specIndex, hl, Except.ok.injEq] at h
      exact h ▸ Nat.mod_lt _ hn
    | num m => simp [specIndex, hl] at h

theorem specIndex_crossed_lt {r : Record} {subs : List FeatureSpec}
    {n : Nat} {i : Nat} (hn : 0 < n)
    (h : specIndex r (.crossed subs n) = .ok i) : i < n := by
  cases hces : specIndexList r subs with
  | error e => rw [specIndex, hces] at h; simp [Bind.bind, Except.bind] at h
  | ok indices =>
    rw [specIndex, hces] at h
    simp only [Bind.bind, Except.bind, Except.ok.injEq] at h
    exact h ▸ Nat.mod_lt _ hn

/-- C3: a hash-categorical or crossed specification with positive declared
`hash_bucket_size` n always computes a bucket index strictly below n, and
the transform is a deterministic (pure) function of its record and spec. -/
theorem C3_hash_in_range (r : Record) (col : String)
    (subs : List FeatureSpec) (n : Nat) (hn : 0 < n) :
    (∀ i, specIndex r (.hashed col n) = .ok i → i < n) ∧
    (∀ i, specIndex r (.crossed subs n) = .ok i → i < n) ∧
    specIndex r (.hashed col n) = specIndex r (.hashed col n) ∧
    specIndex r (.crossed subs n) = specIndex r (.crossed subs n) :=
  ⟨fun _ h => specIndex_hashed_lt hn h, fun _ h => specIndex_crossed_lt hn h,
   rfl, rfl⟩

/-- C3 witness: the notebook's hashed `occupation` column and the 3-way
cross `age_buckets × education × occupation` on the end-to-end example
record land strictly below their declared bucket count 1000. -/
theorem C3_hash_in_range_witness :
    stableHash "Adm-clerical" % 1000 < 1000 ∧
    stableHash (crossKey [4, 0, stableHash "Adm-clerical" % 1000]) % 1000 < 1000 :=
  ⟨(C3_hash_in_range [("occupation", Value.str "Adm-clerical")] "occupation"
      [] 1000 (by decide)).1 (stableHash "Adm-clerical" % 1000) rfl,
   (C3_hash_in_range
      [("age", Value.num 39), ("education", Value.str "Bachelors"),
       ("occupation", Value.str "Adm-clerical")] "occupation"
      [ageBuckets, education, occupation] 1000 (by decide)).2.1
      (stableHash (crossKey [4, 0, stableHash "Adm-clerical" % 1000]) % 1000) rfl⟩

/-! ## Sigmoid -/

/-- C4: the logistic function satisfies `sigmoid 0 = 1/2`, is strictly
monotonically increasing, and its output lies strictly inside `(0, 1)` for
every real input, including the extreme inputs ±10^6 (the real-valued
model has no overflow and no NaN). -/
theorem C4_sigmoid_props :
    sigmoid 0 = 1 / 2 ∧ StrictMono sigmoid ∧
    (∀ z : ℝ, 0 < sigmoid z ∧ sigmoid z < 1) ∧
    (0 < sigmoid 1000000 ∧ sigmoid 1000000 < 1) ∧
    (0 < sigmoid (-1000000) ∧ sigmoid (-1000000) < 1) := by
  have hin : ∀ z : ℝ, 0 < sigmoid z ∧ sigmoid z < 1 := by
    intro z
    unfold sigmoid
    have h2 : (0:ℝ) < 1 + Real.exp (-z) := by positivity
    constructor
    · positivity
    · rw [div_lt_one h2]
      have := Real.exp_pos (-z)
      linarith
  refine ⟨?_, ?_, hin, hin 1000000, hin (-1000000)⟩
  · rw [sigmoid, neg_zero, Real.exp_zero]
    norm_num
  · intro a b hab
    unfold sigmoid
    have h1 : (0:ℝ) < 1 + Real.exp (-b) := by positivity
    apply one_div_lt_one_div_of_lt h1
    have := Real.exp_lt_exp.mpr (neg_lt_neg hab)
    linarith

/-! ## Parse structure lemmas -/

theorem coerceAll_length : ∀ (ds : List Value) (fs : List String)
    (vs : List Value), coerceAll ds fs = .ok vs → vs.length = ds.length := by
  intro ds
  induction ds with
  | nil =>
    intro fs vs h
    cases fs with
    | nil => simp only [coerceAll, Except.ok.injEq] at h; simp [← h]
    | cons f ft => simp [coerceAll] at h
  | cons d dt ih =>
    intro fs vs h
    cases fs with
    | nil => simp [coerceAll] at h
    | cons f ft =>
      rw [coerceAll] at h
      cases hc : coerce d f with
      | error e => rw [hc] at h; simp [Bind.bind, Except.bind] at h
      | ok v =>
        rw [hc] at h
        cases hca : coerceAll dt ft with
        | error e => rw [hca] at h; simp [Bind.bind, Except.bind] at h
        | ok vs2 =>
          rw [hca] at h
          simp only [Bind.bind, Except.bind, Except.ok.injEq] at h
          subst h
          simp [ih ft vs2 hca]

theorem coerceAll_str_get : ∀ (ds : List Value) (fs : List String)
    (vs : List Value) (i : Nat) (d : String),
    coerceAll ds fs = .ok vs → ds[i]? = some (.str d) →
    ∃ f, fs[i]? = some f ∧ vs[i]? = some (.str f) := by
  intro ds
  induction ds with
  | nil => intro fs vs i d h hd; simp at hd
  | cons d0 dt ih =>
    intro fs vs i d h hd
    cases fs with
    | nil => simp [coerceAll] at h
    | cons f ft =>
      rw [coerceAll] at h
      cases hc : coerce d0 f with
      | error e => rw [hc] at h; simp [Bind.bind, Except.bind] at h
      | ok v =>
        rw [hc] at h
        cases hca : coerceAll dt ft with
        | error e => rw [hca] at h; simp [Bind.bind, Except.bind] at h
        | ok vs2 =>
          rw [hca] at h
          simp only [Bind.bind, Except.bind, Except.ok.injEq] at h
          subst h
          cases i with
          | zero =>
            simp only [List.getElem?_cons_zero, Option.some.injEq] at hd
            subst hd
            simp only [coerce, Except.ok.injEq] at hc
            subst hc
            exact ⟨f, by simp, by simp⟩
          | succ j =>
            simp only [List.getElem?_cons_succ] at hd ⊢
            exact ih ft vs2 j d hca hd

theorem len15_shape {α : Type} (l : List α) (h : l.length = 15) :
    ∃ a0 a1 a2 a3 a4 a5 a6 a7 a8 a9 a10 a11 a12 a13 a14,
      l = [a0, a1, a2, a3, a4, a5, a6, a7, a8, a9, a10, a11, a12, a13, a14] := by
  rcases l with _ | ⟨a0, _ | ⟨a1, _ | ⟨a2, _ | ⟨a3, _ | ⟨a4, _ | ⟨a5, _ |
    ⟨a6, _ | ⟨a7, _ | ⟨a8, _ | ⟨a9, _ | ⟨a10, _ | ⟨a11, _ | ⟨a12, _ |
    ⟨a13, _ | ⟨a14, t⟩⟩⟩⟩⟩⟩⟩⟩⟩⟩⟩⟩⟩⟩⟩
  all_goals simp only [List.length_cons, List.length_nil] at h
  all_goals try omega
  have ht : t = [] := List.length_eq_zero.mp (by omega)
  subst ht
  exact ⟨a0, a1, a2, a3, a4, a5, a6, a7, a8, a9, a10, a11, a12, a13, a14, rfl⟩

theorem parseCsv_ok_elim {line : String} {r : Record} {lbl : Bool}
    (h : parseCsv line = .ok (r, lbl)) :
    (splitFields line).length = csvColumns.length ∧
    ∃ vals, coerceAll csvDefaults (splitFields line) = .ok vals ∧
      vals.length = 15 ∧
      r = removeField (csvColumns.zip vals) "income_bracket" ∧
      lbl = decide (lookupField (csvColumns.zip vals) "income_bracket" =
        some (.str ">50K")) := by
  simp only [parseCsv] at h
  split at h
  case isTrue hlen =>
    cases hca : coerceAll csvDefaults (splitFields line) with
    | error e => rw [hca] at h; simp [Bind.bind, Except.bind] at h
    | ok vals =>
      rw [hca] at h
      simp only [Bind.bind, Except.bind, Except.ok.injEq, Prod.mk.injEq] at h
      obtain ⟨hr, hlbl⟩ := h
      exact ⟨hlen, vals, rfl,
        by simpa [csvDefaults] using coerceAll_length _ _ _ hca,
        hr.symm, hlbl.symm⟩
  case isFalse hlen => simp at h

/-- C5: for every line that parses, the boolean label is true exactly when
the `income_bracket` field — the 15th comma-separated field of the line —
equals the above-threshold marker ">50K". -/
theorem C5_label_law (line : String) (r : Record) (lbl : Bool)
    (h : parseCsv line = .ok (r, lbl)) :
    (lbl = true ↔ (splitFields line)[14]? = some ">50K") := by
  obtain ⟨hflen, vals, hca, hvlen, hr, hlbl⟩ := parseCsv_ok_elim h
  obtain ⟨f, hf14, hv14⟩ :=
    coerceAll_str_get csvDefaults (splitFields line) vals 14 "" hca rfl
  obtain ⟨v0, v1, v2, v3, v4, v5, v6, v7, v8, v9, v10, v11, v12, v13, v14,
    rfl⟩ := len15_shape vals hvlen
  have hv : v14 = .str f := by simpa using hv14
  subst hv
  have hlook : lookupField
      (csvColumns.zip [v0, v1, v2, v3, v4, v5, v6, v7, v8, v9, v10, v11,
        v12, v13, Value.str f]) "income_bracket" = some (.str f) := rfl
  rw [hlbl, hlook, hf14]
  simp

/-- C5 witness: the end-to-end example record, whose `income_bracket` field
is "<=50K", parses to label `false`. -/
theorem C5_label_law_witness :
    (false = true ↔ (splitFields exampleLine)[14]? = some ">50K") :=
  C5_label_law exampleLine exampleParsed false (by rfl)

/-! ## Field-count error handling -/

theorem coerce_ne_malformed (d : Value) (f : String) :
    coerce d f ≠ .error .MalformedRecordError := by
  cases d with
  | str s => simp [coerce]
  | num n => cases h : strToInt f <;> simp [coerce, h]

theorem coerceAll_ne_malformed : ∀ (ds : List Value) (fs : List String),
    ds.length = fs.length →
    coerceAll ds fs ≠ .error .MalformedRecordError := by
  intro ds
  induction ds with
  | nil =>
    intro fs h
    cases fs with
    | nil => simp [coerceAll]
    | cons f ft => simp at h
  | cons d dt ih =>
    intro fs h
    cases fs with
    | nil => simp at h
    | cons f ft =>
      rw [coerceAll]
      cases hc : coerce d f with
      | error e =>
        simp only [hc, Bind.bind, Except.bind, ne_eq, Except.error.injEq]
        intro he
        exact coerce_ne_malformed d f (he ▸ hc)
      | ok v =>
        simp only [hc, Bind.bind, Except.bind]
        cases hca : coerceAll dt ft with
        | error e =>
          simp only [ne_eq, Except.error.injEq]
          intro he
          exact ih ft (by simpa using h) (he ▸ hca)
        | ok vs => simp

/-- C7: a line whose comma-separated field count differs from the declared
column count parses to `MalformedRecordError`, and a line with the right
field count never fails with that error. -/
theorem C7_field_count (line : String) :
    ((splitFields line).length ≠ csvColumns.length →
      parseCsv line = .error .MalformedRecordError) ∧
    ((splitFields line).length = csvColumns.length →
      parseCsv line ≠ .error .MalformedRecordError) := by
  constructor
  · intro hne
    simp only [parseCsv]
    rw [if_neg hne]
  · intro heq
    have hlen : csvDefaults.length = (splitFields line).length := by
      rw [heq]; rfl
    simp only [parseCsv]
    rw [if_pos heq]
    cases hca : coerceAll csvDefaults (splitFields line) with
    | error e =>
      simp only [Bind.bind, Except.bind, ne_eq, Except.error.injEq]
      intro he
      exact coerceAll_ne_malformed _ _ hlen (he ▸ hca)
    | ok vals => simp [Bind.bind, Except.bind]

/-- C7 witness: the example line with its last field dropped (one fewer
delimiter, 14 fields) fails with `MalformedRecordError`; the full
15-field example line does not. -/
theorem C7_field_count_witness :
    parseCsv "39,State-gov,77516,Bachelors,13,Never-married,Adm-clerical,Not-in-family,White,Male,2174,0,40,United-States" =
      .error .MalformedRecordError ∧
    parseCsv exampleLine ≠ .error .MalformedRecordError :=
  ⟨(C7_field_count _).1 (by decide),
   (C7_field_count exampleLine).2 (by decide)⟩

/-! ## One-hot and dimension lemmas -/

theorem oneHot_length (n i : Nat) : (oneHot n i).length = n := by
  simp [oneHot]

theorem count_map_oneHot (i : Nat) : ∀ (l : List Nat),
    (l.map (fun j => if j = i then (1 : Int) else 0)).count 1 = l.count i := by
  intro l
  induction l with
  | nil => rfl
  | cons a t ih =>
    by_cases hai : a = i <;> simp [List.count_cons, ih, hai]

theorem oneHot_count_one {n i : Nat} (h : i < n) :
    (oneHot n i).count 1 = 1 := by
  rw [oneHot, count_map_oneHot]
  exact List.count_eq_one_of_mem (List.nodup_range n) (List.mem_range.mpr h)

theorem oneHot_mem {n i : Nat} : ∀ x ∈ oneHot n i, x = 0 ∨ x = 1 := by
  intro x hx
  simp only [oneHot, List.mem_map, List.mem_range] at hx
  obtain ⟨j, _, hj⟩ := hx
  by_cases h : j = i
  · right; rw [← hj, if_pos h]
  · left; rw [← hj, if_neg h]

theorem specIndex_lt_width {r : Record} {s : FeatureSpec} {i : Nat}
    (hwf : specWF s = true) (h : specIndex r s = .ok i) : i < width s := by
  cases s with
  | numeric col => simp [specIndex] at h
  | vocab col V =>
    cases hl : lookupField r col with
    | none => simp [specIndex, hl] at h
    | some v =>
      cases v with
      | str t =>
        simp only [specIndex, hl, Except.ok.injEq] at h
        subst h
        exact Nat.lt_succ_of_le (vocabIndex_le_length V t)
      | num m => simp [specIndex, hl] at h
  | hashed col n =>
    exact specIndex_hashed_lt (by simpa [specWF] using hwf) h
  | bucketized col bs =>
    cases hl : lookupField r col with
    | none => simp [specIndex, hl] at h
    | some v =>
      cases v with
      | str t => simp [specIndex, hl] at h
      | num x =>
        simp only [specIndex, hl] at h
        split at h
        · simp only [Except.ok.injEq] at h
          subst h
          exact Nat.lt_succ_of_le (bucketize_le_length bs x)
        · simp at h
  | crossed subs n =>
    exact specIndex_crossed_lt (by simpa [specWF] using hwf) h

theorem transformSpec_nonNumeric {r : Record} {s : FeatureSpec}
    (hnn : isNumericSpec s = false) :
    transformSpec r s = (do
      let i ← specIndex r s
      .ok (oneHot (width s) i)) := by
  cases s with
  | numeric col => simp [isNumericSpec] at hnn
  | vocab col V => rfl
  | hashed col n => rfl
  | bucketized col bs => rfl
  | crossed subs n => rfl

theorem transformSpec_length {r : Record} {s : FeatureSpec} {w : List Int}
    (h : transformSpec r s = .ok w) : w.length = width s := by
  cases hs : isNumericSpec s with
  | true =>
    cases s with
    | numeric col =>
      cases hl : lookupField r col with
      | none => simp [transformSpec, hl] at h
      | some v =>
        cases v with
        | str t => simp [transformSpec, hl] at h
        | num x =>
          simp only [transformSpec, hl, Except.ok.injEq] at h
          subst h; rfl
    | vocab col V => simp [isNumericSpec] at hs
    | hashed col n => simp [isNumericSpec] at hs
    | bucketized col bs => simp [isNumericSpec] at hs
    | crossed subs n => simp [isNumericSpec] at hs
  | false =>
    rw [transformSpec_nonNumeric hs] at h
    cases hi : specIndex r s with
    | error e => rw [hi] at h; simp [Bind.bind, Except.bind] at h
    | ok i =>
      rw [hi] at h
      simp only [Bind.bind, Except.bind, Except.ok.injEq] at h
      subst h
      exact oneHot_length _ _

theorem transform_length : ∀ (specs : List FeatureSpec) (r : Record)
    (v : List Int), transform r specs = .ok v → v.length = totalWidth specs := by
  intro specs
  induction specs with
  | nil =>
    intro r v h
    simp only [transform, Except.ok.injEq] at h
    simp [← h, totalWidth]
  | cons s rest ih =>
    intro r v h
    rw [transform] at h
    cases hts : transformSpec r s with
    | error e => rw [hts] at h; simp [Bind.bind, Except.bind] at h
    | ok w =>
      rw [hts] at h
      cases htr : transform r rest with
      | error e => rw [htr] at h; simp [Bind.bind, Except.bind] at h
      | ok vs =>
        rw [htr] at h
        simp only [Bind.bind, Except.bind, Except.ok.injEq] at h
        subst h
        simp [totalWidth, transformSpec_length hts, ih r vs htr]

/-- C6: a successful transform always yields the declared total dimension —
the sum of each specification's declared width, independent of the record's
contents and of row order — and every non-numeric specification with a
well-formed bucket count activates exactly one index, strictly below its
declared cardinality. -/
theorem C6_fixed_dimension (r : Record) (specs : List FeatureSpec)
    (v : List Int) (h : transform r specs = .ok v) :
    v.length = totalWidth specs ∧
    (∀ s ∈ specs, isNumericSpec s = false → specWF s = true →
      ∀ w, transformSpec r s = .ok w →
        ∃ i, i < width s ∧ w = oneHot (width s) i ∧ w.count 1 = 1 ∧
          ∀ x ∈ w, x = 0 ∨ x = 1) := by
  refine ⟨transform_length specs r v h, ?_⟩
  intro s _ hnn hwf w hw
  rw [transformSpec_nonNumeric hnn] at hw
  cases hi : specIndex r s with
  | error e => rw [hi] at hw; simp [Bind.bind, Except.bind] at hw
  | ok i =>
    rw [hi] at hw
    simp only [Bind.bind, Except.bind, Except.ok.injEq] at hw
    subst hw
    have hlt := specIndex_lt_width hwf hi
    exact ⟨i, hlt, rfl, oneHot_count_one hlt, oneHot_mem⟩

/-- C6 witness: on the example record, the pair `[education, age_buckets]`
yields a vector of the declared total dimension 17 + 11 = 28, and the
`education` one-hot activates exactly the "Bachelors" index 0. -/
theorem C6_fixed_dimension_witness :
    (oneHot 17 0 ++ oneHot 11 4).length = totalWidth [education, ageBuckets] ∧
    (∃ i, i < width education ∧
      (oneHot 17 0 : List Int) = oneHot (width education) i ∧
      (oneHot 17 0 : List Int).count 1 = 1 ∧
      ∀ x ∈ (oneHot 17 0 : List Int), x = 0 ∨ x = 1) := by
  have h := C6_fixed_dimension exampleParsed [education, ageBuckets]
    (oneHot 17 0 ++ oneHot 11 4) (by rfl)
  exact ⟨h.1, h.2 education (List.mem_cons_self _ _) rfl rfl
    (oneHot 17 0) (by rfl)⟩

/-! ## Purity and atomicity -/

/-- C8: every core operation is a pure deterministic function of its
explicit inputs — the embedding has no state besides the arguments, so two
invocations on identical inputs are the same value; in particular the
round-trip `predict_label (score features w) 0.5` is stable across
repeated invocations. -/
theorem C8_purity (line : String) (r : Record) (specs : List FeatureSpec)
    (features : List ℝ) (w : WeightVector) (p : ℝ) (y : Bool) :
    parseCsv line = parseCsv line ∧
    transform r specs = transform r specs ∧
    score features w = score features w ∧
    loss p y = loss p y ∧
    (score features w).map (fun q => predictLabel q (1 / 2)) =
      (score features w).map (fun q => predictLabel q (1 / 2)) :=
  ⟨rfl, rfl, rfl, rfl, rfl⟩

/-- C9: a transform over a spec sequence either fully succeeds with the
complete feature vector or fails atomically with only an error, and any
failing constituent specification makes the whole transform fail. -/
theorem C9_atomic_failure (r : Record) (specs : List FeatureSpec) :
    ((∃ v, transform r specs = .ok v) ∨ (∃ e, transform r specs = .error e)) ∧
    (∀ s ∈ specs, ∀ e, transformSpec r s = .error e →
      ∃ e2, transform r specs = .error e2) := by
  constructor
  · cases h : transform r specs with
    | ok v => exact Or.inl ⟨v, rfl⟩
    | error e => exact Or.inr ⟨e, rfl⟩
  · intro s hs e he
    induction specs with
    | nil => cases hs
    | cons s0 rest ih =>
      rcases List.mem_cons.mp hs with rfl | hmem
      · exact ⟨e, by rw [transform, he]; simp [Bind.bind, Except.bind]⟩
      · cases hts : transformSpec r s0 with
        | error e0 =>
          exact ⟨e0, by rw [transform, hts]; simp [Bind.bind, Except.bind]⟩
        | ok w =>
          obtain ⟨e2, he2⟩ := ih hmem
          exact ⟨e2, by
            rw [transform, hts, he2]; simp [Bind.bind, Except.bind]⟩

/-- C9 witness: on the empty record the numeric `age` specification fails
with `MissingFieldError` and the whole transform fails atomically. -/
theorem C9_atomic_failure_witness :
    ∃ e2, transform [] [age] = .error e2 :=
  (C9_atomic_failure [] [age]).2 age (List.mem_cons_self _ _)
    .MissingFieldError rfl

/-! ## Label-column removal -/

theorem lookupField_removeField_self (rec : Record) (key : String) :
    lookupField (removeField rec key) key = none := by
  induction rec with
  | nil => rfl
  | cons p rest ih =>
    obtain ⟨k, v⟩ := p
    by_cases hk : k = key
    · simp [removeField, hk, ih]
    · simp [removeField, lookupField, hk, ih]

/-- C10: parsing never delivers the label column to the feature transforms:
the parsed feature record has no `income_bracket` entry, and has an entry
for every other declared CSV column. -/
theorem C10_label_excluded (line : String) (r : Record) (lbl : Bool)
    (h : parseCsv line = .ok (r, lbl)) :
    lookupField r "income_bracket" = none ∧
    (∀ c ∈ csvColumns, c ≠ "income_bracket" →
      (lookupField r c).isSome = true) := by
  obtain ⟨hflen, vals, hca, hvlen, hr, hlbl⟩ := parseCsv_ok_elim h
  obtain ⟨v0, v1, v2, v3, v4, v5, v6, v7, v8, v9, v10, v11, v12, v13, v14,
    rfl⟩ := len15_shape vals hvlen
  subst hr
  refine ⟨lookupField_removeField_self _ _, ?_⟩
  intro c hc hne
  simp only [csvColumns, List.mem_cons, List.not_mem_nil, or_false] at hc
  rcases hc with rfl|rfl|rfl|rfl|rfl|rfl|rfl|rfl|rfl|rfl|rfl|rfl|rfl|rfl|rfl
  · rfl
  · rfl
  · rfl
  · rfl
  · rfl
  · rfl
  · rfl
  · rfl
  · rfl
  · rfl
  · rfl
  · rfl
  · rfl
  · rfl
  · exact absurd rfl hne

/-- C10 witness: the parsed example record has no `income_bracket` entry
but keeps the `education` column. -/
theorem C10_label_excluded_witness :
    lookupField exampleParsed "income_bracket" = none ∧
    (lookupField exampleParsed "education").isSome = true := by
  have h := C10_label_excluded exampleLine exampleParsed false (by rfl)
  exact ⟨h.1, h.2 "education" (by decide) (by decide)⟩

end TFLinear
